import Mathlib

/-!
Verification of the HoeffdingPruningTree repository: the importance-gated
pruning engine (SelectivePruner, CompletePruner, the pruning controller in
`HoeffdingPruningTree`) and the seeded reservoir storages
(`GeometricReservoirStorage`, `UniformReservoirStorage`).

Tree nodes are modelled as a closed sum `Node` of the two river node kinds
used by the pruners: `HTLeaf` (statistics, activity flag) and `DTBranch`
(split feature, pre-split statistics, ordered children).  Statistics are
modelled as the list of class-weight values of the leaf's `stats` dict;
class weights are rationals.
-/

inductive Node where
  | leaf (stats : List ℚ) (isActive : Bool)
  | branch (feature : String) (stats : List ℚ) (children : List Node)
deriving Repr

/-- `isinstance(node, HTLeaf)`. -/
def Node.isLeafNode : Node → Bool
  | .leaf .. => true
  | .branch .. => false

/-- Python's `max` on a list (raises on `[]`; we return `0` there, a case the
source never reaches because the callers guard it). -/
def pyMax : List ℚ → ℚ
  | [] => 0
  | x :: xs => xs.foldl max x

/-- river's `HTLeaf.calculate_promise` (external tree library): total observed
weight minus the largest class weight, or `0` when nothing was observed. -/
def calculate_promise (stats : List ℚ) : ℚ :=
  if 0 < stats.sum then stats.sum - pyMax stats else 0

/-- `node.iter_leaves()`: the leaves of the subtree in left-to-right order,
each given by its statistics and activity flag. -/
def Node.leavesOf : Node → List (List ℚ × Bool)
  | .leaf s a => [(s, a)]
  | .branch _ _ cs => (cs.attach.map (fun c => Node.leavesOf c.1)).flatten
decreasing_by
  simp only [Node.branch.sizeOf_spec]
  have := List.sizeOf_lt_of_mem c.2
  omega

namespace SelectivePruner

/-- `SelectivePruner._calculate_avg_promise`: the unweighted mean of
`calculate_promise` over every leaf of the node's subtree. -/
def calculate_avg_promise (n : Node) : ℚ :=
  ((n.leavesOf.map (fun l => calculate_promise l.1)).sum) / n.leavesOf.length

/-- The per-child promise computed inside `SelectivePruner._choose_child`:
a leaf contributes its own `calculate_promise()`, a branch the average promise
of its subtree. -/
def child_promise (n : Node) : ℚ :=
  match n with
  | .leaf s _ => calculate_promise s
  | .branch .. => calculate_avg_promise n

/-- `SelectivePruner._choose_child`: `promises.index(max(promises))` then the
child at that index. -/
def choose_child (children : List Node) : Node :=
  let promises := children.map child_promise
  children.getD (promises.indexOf (pyMax promises)) (.leaf [] true)

/-- `SelectivePruner.prune_subtree`: prune every branch child first
(leaves are kept), then either keep the node with the pruned children
installed (split feature important) or replace it by `_choose_child` of the
pruned children. -/
def prune_subtree (imp : List String) : Node → Node
  | .leaf s a => .leaf s a
  | .branch f s cs =>
    let pruned := cs.attach.map (fun c =>
      if c.1.isLeafNode then c.1 else prune_subtree imp c.1)
    if f ∉ imp then choose_child pruned else .branch f s pruned
decreasing_by
  simp only [Node.branch.sizeOf_spec]
  have := List.sizeOf_lt_of_mem c.2
  omega

/-- `SelectivePruner.prune_tree`: replace the root by the pruned subtree when
the root is a branch; a leaf root is left untouched. -/
def prune_tree (imp : List String) (root : Node) : Node :=
  match root with
  | .branch f s cs => prune_subtree imp (.branch f s cs)
  | r => r

end SelectivePruner

/-- `HoeffdingPruningTree.create_new_leaf(initial_stats=..., parent=...)`:
river's `_new_leaf` builds a fresh, active leaf holding exactly the supplied
initial statistics. -/
def HoeffdingPruningTree.create_new_leaf (initial_stats : List ℚ) : Node :=
  .leaf initial_stats true

namespace CompletePruner

/-- `CompletePruner.prune_subtree(node, parent, index)` as a function from the
visited subtree to its replacement (the imperative source installs the result
at `parent.children[index]`, or as the new root when `parent is None`):
a branch on an unimportant feature becomes a fresh leaf initialized with the
branch's own pre-split statistics; a branch on an important feature recurses
into every child (child as `node`, this node as `parent`); a leaf fails the
`isinstance(node, DTBranch)` test and is left untouched. -/
def prune_subtree (imp : List String) : Node → Node
  | .leaf s a => .leaf s a
  | .branch f s cs =>
    if f ∉ imp then HoeffdingPruningTree.create_new_leaf s
    else .branch f s (cs.attach.map (fun c => prune_subtree imp c.1))
decreasing_by
  simp only [Node.branch.sizeOf_spec]
  have := List.sizeOf_lt_of_mem c.2
  omega

/-- `CompletePruner.prune_tree`: start `prune_subtree` at the root (parent
`None`) when the root is a branch; a leaf root is left untouched. -/
def prune_tree (imp : List String) (root : Node) : Node :=
  match root with
  | .branch f s cs => prune_subtree imp (.branch f s cs)
  | r => r

end CompletePruner

namespace HoeffdingPruningTree

/-- The recomputation of `important_features` at the end of `_update_ipfi`:
if any feature's running importance value meets or exceeds the threshold,
keep exactly the features that do; otherwise fall back to all feature
names. -/
def update_important_features (threshold : ℚ) (feature_names : List String)
    (importance_values : List (String × ℚ)) : List String :=
  if importance_values.any (fun p => threshold ≤ p.2) then
    (importance_values.filter (fun p => threshold ≤ p.2)).map Prod.fst
  else feature_names

/-- `_update_leaf_counts`: enumerate the current leaves and count the active
and the inactive ones. -/
def update_leaf_counts (root : Node) : ℕ × ℕ :=
  (root.leavesOf.countP (fun l => l.2),
   root.leavesOf.countP (fun l => !l.2))

/-- The controller state mutated by `HoeffdingPruningTree.learn_one`:
the tree root, the leaf-count bookkeeping, and the important-feature
machinery.  `initialized = false` models `self.incremental_pfi is None`;
`last_important_features` is a Python `set`, modelled as a `Finset`. -/
structure HPTState where
  root : Node
  n_active_leaves : ℕ
  n_inactive_leaves : ℕ
  feature_names : List String
  important_features : List String
  last_important_features : Finset String
  initialized : Bool

/-- `HoeffdingPruningTree.learn_one(x, y, sample_weight=...)`.
External collaborators are parameters: `pruneFn` is the installed pruner's
`prune_tree` as a function of the current important-feature list, `grow` is
`super().learn_one`'s effect on the tree given a sample weight, and
`importance_values` is the mapping `explain_one` leaves in
`incremental_pfi.importance_values` for this observation.  `x_keys` is
`list(x.keys())`. -/
def learn_one (pruneFn : List String → Node → Node) (grow : Node → ℚ → Node)
    (threshold : ℚ) (x_keys : List String)
    (importance_values : List (String × ℚ))
    (st : HPTState) (sample_weight : ℚ) : HPTState :=
  -- first observation: `if self.incremental_pfi is None: ...`
  let st1 := if st.initialized then st else
    { st with feature_names := x_keys, important_features := x_keys,
              last_important_features := x_keys.toFinset, initialized := true }
  -- `_update_ipfi(x, y)`
  let imp := update_important_features threshold st1.feature_names importance_values
  -- prune when the important-feature set changed, then recount the leaves
  let st2 :=
    if st1.last_important_features ≠ imp.toFinset then
      let root2 := pruneFn imp st1.root
      { st1 with root := root2,
                 n_active_leaves := (update_leaf_counts root2).1,
                 n_inactive_leaves := (update_leaf_counts root2).2,
                 important_features := imp }
    else { st1 with important_features := imp }
  let st3 := { st2 with last_important_features := imp.toFinset }
  -- `super().learn_one(x, y, sample_weight=1.0)` (external tree growth)
  { st3 with root := grow st3.root 1 }

end HoeffdingPruningTree

/-- Explicit model of a seeded `numpy.random.RandomState` as the streams of
values the reservoir code draws from it (the seed determines these streams,
so constructing two generators from equal seeds yields equal `Rng` values):
`floats` models the `rng.random()` draws, `ints` models the `rng.randint(n)`
draws (reduced mod `n`), and `skips` models the successive integer values of
`np.floor(np.log(rng.random()) / np.log(1 - w)) + 1` that Algorithm L
computes (a positive integer obtained by floating-point arithmetic from a
float draw and the current decay state `w`; only its role as a drawn skip
distance matters to the properties proved here). -/
structure Rng where
  floats : List ℚ
  ints : List ℕ
  skips : List ℕ
deriving Repr, DecidableEq

/-- One `rng.random()` draw. -/
def Rng.nextFloat (r : Rng) : ℚ × Rng :=
  (r.floats.headD 0, { r with floats := r.floats.tail })

/-- One `rng.randint(n)` draw: a value in `[0, n)`. -/
def Rng.nextInt (r : Rng) (n : ℕ) : ℕ × Rng :=
  (r.ints.headD 0 % n, { r with ints := r.ints.tail })

/-- One Algorithm L skip draw, `np.floor(np.log(rng.random()) / np.log(1 - w)) + 1`. -/
def Rng.nextSkip (r : Rng) : ℕ × Rng :=
  (r.skips.headD 0 + 1, { r with skips := r.skips.tail })

/-- Models `self._algo_wt *= np.exp(np.log(self.rng.random()) / self.size)`:
consumes one float draw and advances the decay state (whose effect on later
skip distances lives inside the `skips` abstraction). -/
def Rng.stepWt (r : Rng) : Rng :=
  { r with floats := r.floats.tail }

/-- `GeometricReservoirStorage`: bounded buffer with fixed inclusion
probability once full.  Stored observations are modelled by an identifier
`ℕ`; `storage_x`/`storage_y` are `self._storage_x`/`self._storage_y`. -/
structure GeometricReservoirStorage where
  size : ℕ
  constant_probability : ℚ
  store_targets : Bool
  rng : Rng
  storage_x : List ℕ
  storage_y : List (Option ℕ)
deriving Repr, DecidableEq

namespace GeometricReservoirStorage

/-- `GeometricReservoirStorage.__init__`: `constant_probability` defaults to
`1 / size` when not supplied; the buffer starts empty. -/
def init (size : ℕ) (constant_probability : Option ℚ) (store_targets : Bool)
    (rng : Rng) : GeometricReservoirStorage :=
  { size := size,
    constant_probability := constant_probability.getD (1 / (size : ℚ)),
    store_targets := store_targets, rng := rng,
    storage_x := [], storage_y := [] }

/-- `GeometricReservoirStorage.update(x, y)`. -/
def update (r : GeometricReservoirStorage) (x : ℕ) (y : Option ℕ) :
    GeometricReservoirStorage :=
  if r.storage_x.length < r.size then
    { r with storage_x := r.storage_x ++ [x],
             storage_y := if r.store_targets then r.storage_y ++ [y]
                          else r.storage_y }
  else
    let fr := r.rng.nextFloat
    if fr.1 ≤ r.constant_probability then
      let ir := fr.2.nextInt r.size
      { r with rng := ir.2,
               storage_x := r.storage_x.set ir.1 x,
               storage_y := if r.store_targets then r.storage_y.set ir.1 y
                            else r.storage_y }
    else { r with rng := fr.2 }

/-- The include decision `update` makes for one incoming item: appended while
below capacity, otherwise included exactly when the float draw passes the
probability test. -/
def included (r : GeometricReservoirStorage) : Bool :=
  decide (r.storage_x.length < r.size) ||
    decide (r.rng.nextFloat.1 ≤ r.constant_probability)

/-- Feed a sequence of `update(x, y)` calls, recording each include/evict
decision. -/
def run : GeometricReservoirStorage → List (ℕ × Option ℕ) →
    GeometricReservoirStorage × List Bool
  | r, [] => (r, [])
  | r, p :: ps =>
    let d := included r
    let rest := run (update r p.1 p.2) ps
    (rest.1, d :: rest.2)

end GeometricReservoirStorage

/-- `UniformReservoirStorage`: Algorithm L uniform reservoir.
`algo_l_counter` is the float-valued skip counter `self._algo_l_counter`
(integer-valued in every reachable state); the decay state `self._algo_wt`
lives inside the `Rng` abstraction. -/
structure UniformReservoirStorage where
  size : ℕ
  store_targets : Bool
  rng : Rng
  stored_samples : ℕ
  algo_l_counter : ℕ
  storage_x : List ℕ
  storage_y : List (Option ℕ)
deriving Repr, DecidableEq

namespace UniformReservoirStorage

/-- `UniformReservoirStorage.__init__`: draws `self._algo_wt` (one float
draw) and the initial skip counter `size + (floor(...) + 1)`; the buffer
starts empty with `stored_samples = 0`. -/
def init (size : ℕ) (store_targets : Bool) (rng : Rng) :
    UniformReservoirStorage :=
  let r1 := rng.stepWt
  let gr := r1.nextSkip
  { size := size, store_targets := store_targets, rng := gr.2,
    stored_samples := 0, algo_l_counter := size + gr.1,
    storage_x := [], storage_y := [] }

/-- `UniformReservoirStorage.update(x, y)`. -/
def update (u : UniformReservoirStorage) (x : ℕ) (y : Option ℕ) :
    UniformReservoirStorage :=
  let ss := u.stored_samples + 1
  if ss ≤ u.size then
    { u with stored_samples := ss,
             storage_x := u.storage_x ++ [x],
             storage_y := if u.store_targets then u.storage_y ++ [y]
                          else u.storage_y }
  else if u.algo_l_counter = ss then
    let gr := u.rng.nextSkip
    let ir := gr.2.nextInt u.size
    { u with stored_samples := ss,
             algo_l_counter := u.algo_l_counter + gr.1,
             rng := ir.2.stepWt,
             storage_x := u.storage_x.set ir.1 x,
             storage_y := if u.store_targets then u.storage_y.set ir.1 y
                          else u.storage_y }
  else { u with stored_samples := ss }

/-- The include decision `update` makes for one incoming item. -/
def included (u : UniformReservoirStorage) : Bool :=
  decide (u.stored_samples + 1 ≤ u.size) ||
    decide (u.algo_l_counter = u.stored_samples + 1)

/-- Feed a sequence of `update(x, y)` calls, recording each include/evict
decision. -/
def run : UniformReservoirStorage → List (ℕ × Option ℕ) →
    UniformReservoirStorage × List Bool
  | u, [] => (u, [])
  | u, p :: ps =>
    let d := included u
    let rest := run (update u p.1 p.2) ps
    (rest.1, d :: rest.2)

end UniformReservoirStorage

/-- `HoeffdingPruningTree._set_pruner`: the two valid pruner kinds. -/
inductive PrunerKind where
  | selective
  | complete
deriving Repr, DecidableEq

/-- `HoeffdingPruningTree._set_pruner(pruner)`, run during `__init__` before
any observation is processed: returns the chosen pruner for the two valid
kinds and raises `ValueError` (modelled by `Except.error` carrying the
message) for anything else. -/
def HoeffdingPruningTree.set_pruner (pruner : String) : Except String PrunerKind :=
  if pruner = "selective" then .ok .selective
  else if pruner = "complete" then .ok .complete
  else .error ("Invalid pruner type: " ++ pruner ++
    ". Valid options are \x27selective\x27 or \x27complete\x27.")

/-- Every branch reachable from the node splits on a feature of `imp`. -/
def Node.allImportant (imp : List String) : Node → Bool
  | .leaf .. => true
  | .branch f _ cs =>
    decide (f ∈ imp) && cs.attach.all (fun c => Node.allImportant imp c.1)
decreasing_by
  simp only [Node.branch.sizeOf_spec]
  have := List.sizeOf_lt_of_mem c.2
  omega

/-- Modelled from the spec: *average promise* of a node — a leaf's own
promise score, and for a branch the unweighted mean of promise over every
leaf of its subtree. -/
def SelectivePruner.average_promise_spec (n : Node) : ℚ :=
  match n with
  | .leaf s _ => calculate_promise s
  | .branch _ _ _ =>
    ((n.leavesOf.map (fun l => calculate_promise l.1)).sum) / n.leavesOf.length

/-! ### Claim statements

Each `...Claim` definition states one claim of the specification about the
definitions above. -/

/-- Claim C1, stated at a branch root `.branch f s cs` of a tree whose
important-feature set is `imp`: pruning is postorder (children pruned first,
leaves kept), an unimportant branch is replaced by the already-pruned child
with the highest average promise (first one on ties), an important branch is
kept with the pruned children installed. -/
def SelectivePrunerClaim (imp : List String) (f : String) (s : List ℚ)
    (cs : List Node) : Prop :=
  SelectivePruner.prune_tree imp (.branch f s cs) =
      SelectivePruner.prune_subtree imp (.branch f s cs)
  ∧ SelectivePruner.prune_subtree imp (.branch f s cs) =
      (if f ∈ imp then
        Node.branch f s (cs.map (SelectivePruner.prune_subtree imp))
      else
        SelectivePruner.choose_child (cs.map (SelectivePruner.prune_subtree imp)))
  ∧ (∀ n : Node,
      SelectivePruner.child_promise n = SelectivePruner.average_promise_spec n)
  ∧ (f ∉ imp →
      ∃ i : Fin (cs.map (SelectivePruner.prune_subtree imp)).length,
        SelectivePruner.prune_subtree imp (.branch f s cs)
          = (cs.map (SelectivePruner.prune_subtree imp)).get i
        ∧ (∀ j : Fin (cs.map (SelectivePruner.prune_subtree imp)).length,
            SelectivePruner.average_promise_spec
                ((cs.map (SelectivePruner.prune_subtree imp)).get j)
              ≤ SelectivePruner.average_promise_spec
                ((cs.map (SelectivePruner.prune_subtree imp)).get i))
        ∧ (∀ j : Fin (cs.map (SelectivePruner.prune_subtree imp)).length,
            (j : ℕ) < (i : ℕ) →
            SelectivePruner.average_promise_spec
                ((cs.map (SelectivePruner.prune_subtree imp)).get j)
              < SelectivePruner.average_promise_spec
                ((cs.map (SelectivePruner.prune_subtree imp)).get i)))

/-- Claim C2, stated at a branch `.branch f s cs` with important-feature set
`imp`: an unimportant branch becomes a fresh leaf carrying the branch's own
pre-split statistics (also when it is the root, the `prune_tree` conjunct);
an important branch recurses into every child, each child being replaced in
place by its pruned version. -/
def CompletePrunerClaim (imp : List String) (f : String) (s : List ℚ)
    (cs : List Node) : Prop :=
  (f ∉ imp →
    CompletePruner.prune_subtree imp (.branch f s cs)
        = HoeffdingPruningTree.create_new_leaf s
    ∧ HoeffdingPruningTree.create_new_leaf s = Node.leaf s true
    ∧ CompletePruner.prune_tree imp (.branch f s cs)
        = HoeffdingPruningTree.create_new_leaf s)
  ∧ (f ∈ imp →
    CompletePruner.prune_subtree imp (.branch f s cs)
        = .branch f s (cs.map (CompletePruner.prune_subtree imp))
    ∧ ∀ i : Fin cs.length,
        (cs.map (CompletePruner.prune_subtree imp)).get
            ⟨i.1, by simpa using i.2⟩
          = CompletePruner.prune_subtree imp (cs.get i))

/-- Claim C3, stated for threshold `t`, feature names `names` and the current
importance mapping `vals`: when some value reaches the threshold the computed
important features are exactly the keys whose value does; when none does, the
fallback is all feature names. -/
def UpdateImportantClaim (t : ℚ) (names : List String)
    (vals : List (String × ℚ)) : Prop :=
  ((∃ p ∈ vals, t ≤ p.2) →
     ∀ k : String,
       (k ∈ HoeffdingPruningTree.update_important_features t names vals ↔
          ∃ v : ℚ, (k, v) ∈ vals ∧ t ≤ v))
  ∧ ((∀ p ∈ vals, p.2 < t) →
       HoeffdingPruningTree.update_important_features t names vals = names)

/-- Claim C4, stated for one `learn_one` step from state `st`: the pruner
runs exactly when the newly computed important-feature set differs from the
previous one; right after pruning the two leaf counters are recomputed from
the enumerated leaves of the pruned tree, so they sum to its leaf count; and
the new set becomes the reference for the next observation. -/
def LearnOneClaim (pruneFn : List String → Node → Node)
    (grow : Node → ℚ → Node) (t : ℚ) (x_keys : List String)
    (vals : List (String × ℚ)) (st : HoeffdingPruningTree.HPTState)
    (w : ℚ) : Prop :=
  let imp := HoeffdingPruningTree.update_important_features t
    st.feature_names vals
  let st2 := HoeffdingPruningTree.learn_one pruneFn grow t x_keys vals st w
  (st2.root = grow
      (if st.last_important_features ≠ imp.toFinset then pruneFn imp st.root
       else st.root) 1)
  ∧ (st.last_important_features ≠ imp.toFinset →
      st2.n_active_leaves + st2.n_inactive_leaves
        = (pruneFn imp st.root).leavesOf.length)
  ∧ (st.last_important_features = imp.toFinset →
      st2.n_active_leaves = st.n_active_leaves
      ∧ st2.n_inactive_leaves = st.n_inactive_leaves)
  ∧ st2.last_important_features = imp.toFinset

/-- Claim C6, stated for capacity `size`, any geometric probability option
`cp`, target flag `b`, seeded generator `rng` and any input sequence: both
reservoir variants hold exactly `min size k` items after `k` updates, and so
never more than `size`. -/
def ReservoirCapacityClaim (size : ℕ) (cp : Option ℚ) (b : Bool) (rng : Rng)
    (inputs : List (ℕ × Option ℕ)) : Prop :=
  ((GeometricReservoirStorage.run
      (GeometricReservoirStorage.init size cp b rng) inputs).1.storage_x.length
    = min size inputs.length)
  ∧ ((UniformReservoirStorage.run
      (UniformReservoirStorage.init size b rng) inputs).1.storage_x.length
    = min size inputs.length)
  ∧ (GeometricReservoirStorage.run
      (GeometricReservoirStorage.init size cp b rng) inputs).1.storage_x.length
    ≤ size
  ∧ (UniformReservoirStorage.run
      (UniformReservoirStorage.init size b rng) inputs).1.storage_x.length
    ≤ size

/-- Claim C7 (as amended), stated for a full geometric reservoir `r`: one
float is drawn and the item is included exactly when the draw is less than or
equal to `constant_probability` (the source's `<=` test), in which case a
random slot in `[0, size)` is overwritten; otherwise the buffer is unchanged.
The last conjunct is the constructor default `p = 1/size`. -/
def GeometricFullUpdateClaim (r : GeometricReservoirStorage) (x : ℕ)
    (y : Option ℕ) : Prop :=
  (r.rng.nextFloat.1 ≤ r.constant_probability →
     (GeometricReservoirStorage.update r x y).storage_x
        = r.storage_x.set (r.rng.nextFloat.2.nextInt r.size).1 x
     ∧ (0 < r.size → (r.rng.nextFloat.2.nextInt r.size).1 < r.size))
  ∧ (r.constant_probability < r.rng.nextFloat.1 →
      (GeometricReservoirStorage.update r x y).storage_x = r.storage_x)
  ∧ ∀ (size : ℕ) (b : Bool) (rng : Rng),
      (GeometricReservoirStorage.init size none b rng).constant_probability
        = 1 / (size : ℚ)

/-! ### Helper lemmas -/

/-- Structural induction for `Node` with a membership hypothesis for the
children of a branch. -/
theorem Node.myInduction (P : Node → Prop)
    (hleaf : ∀ s a, P (.leaf s a))
    (hbranch : ∀ f s cs, (∀ c ∈ cs, P c) → P (.branch f s cs)) :
    ∀ n, P n
  | .leaf s a => hleaf s a
  | .branch f s cs =>
    hbranch f s cs (fun c hc => Node.myInduction P hleaf hbranch c)
decreasing_by
  simp only [Node.branch.sizeOf_spec]
  have := List.sizeOf_lt_of_mem hc
  omega

theorem leavesOf_branch (f : String) (s : List ℚ) (cs : List Node) :
    (Node.branch f s cs).leavesOf = (cs.map Node.leavesOf).flatten := by
  rw [Node.leavesOf]
  congr 1
  exact List.attach_map_coe cs Node.leavesOf

theorem allImportant_branch (imp : List String) (f : String) (s : List ℚ)
    (cs : List Node) :
    Node.allImportant imp (.branch f s cs) =
      (decide (f ∈ imp) && cs.all (Node.allImportant imp)) := by
  rw [Node.allImportant]
  congr 1
  rw [Bool.eq_iff_iff]
  simp [List.all_eq_true]

theorem selective_prune_subtree_branch (imp : List String) (f : String)
    (s : List ℚ) (cs : List Node) :
    SelectivePruner.prune_subtree imp (.branch f s cs) =
      if f ∉ imp then
        SelectivePruner.choose_child (cs.map (SelectivePruner.prune_subtree imp))
      else .branch f s (cs.map (SelectivePruner.prune_subtree imp)) := by
  rw [SelectivePruner.prune_subtree]
  have h : cs.attach.map
        (fun c => if c.1.isLeafNode then c.1
                  else SelectivePruner.prune_subtree imp c.1)
      = cs.map (SelectivePruner.prune_subtree imp) := by
    have h0 := List.attach_map_coe cs
      (fun x => if x.isLeafNode then x else SelectivePruner.prune_subtree imp x)
    rw [h0]
    apply List.map_congr_left
    intro a _
    cases a with
    | leaf s' a' => rw [SelectivePruner.prune_subtree]; rfl
    | branch f' s' cs' => rfl
  rw [h]

theorem complete_prune_subtree_branch (imp : List String) (f : String)
    (s : List ℚ) (cs : List Node) :
    CompletePruner.prune_subtree imp (.branch f s cs) =
      if f ∉ imp then HoeffdingPruningTree.create_new_leaf s
      else .branch f s (cs.map (CompletePruner.prune_subtree imp)) := by
  rw [CompletePruner.prune_subtree]
  rw [List.attach_map_coe]

theorem pyMax_spec (l : List ℚ) :
    (l ≠ [] → pyMax l ∈ l) ∧ ∀ x ∈ l, x ≤ pyMax l := by
  have key : ∀ (xs : List ℚ) (a : ℚ),
      (xs.foldl max a = a ∨ xs.foldl max a ∈ xs)
      ∧ a ≤ xs.foldl max a ∧ ∀ b ∈ xs, b ≤ xs.foldl max a := by
    intro xs
    induction xs with
    | nil => intro a; exact ⟨Or.inl rfl, le_refl a, by simp⟩
    | cons b xs ih =>
      intro a
      obtain ⟨hmem, hle, hall⟩ := ih (max a b)
      refine ⟨?_, ?_, ?_⟩
      · rcases hmem with h | h
        · rcases max_choice a b with hc | hc
          · exact Or.inl (by rw [List.foldl_cons, h, hc])
          · exact Or.inr (by rw [List.foldl_cons, h, hc]; exact List.mem_cons_self b xs)
        · exact Or.inr (List.mem_cons_of_mem b h)
      · exact le_trans (le_max_left a b) hle
      · intro c hc
        rcases List.mem_cons.mp hc with rfl | hc
        · exact le_trans (le_max_right a c) hle
        · exact hall c hc
  cases l with
  | nil => exact ⟨fun h => absurd rfl h, by simp⟩
  | cons a l =>
    obtain ⟨hmem, hle, hall⟩ := key l a
    refine ⟨fun _ => ?_, ?_⟩
    · rcases hmem with h | h
      · rw [pyMax, h]; exact List.mem_cons_self a l
      · exact List.mem_cons_of_mem a h
    · intro x hx
      rcases List.mem_cons.mp hx with rfl | hx
      · exact hle
      · exact hall x hx

theorem get_ne_of_lt_indexOf {l : List ℚ} {a : ℚ} :
    ∀ {j : ℕ} (hlen : j < l.length), j < l.indexOf a → l.get ⟨j, hlen⟩ ≠ a := by
  induction l with
  | nil => intro j hlen; simp at hlen
  | cons b l ih =>
    intro j hlen hj
    by_cases hba : b = a
    · rw [List.indexOf_cons_eq l hba] at hj; omega
    · rw [List.indexOf_cons_ne l hba] at hj
      match j with
      | 0 => simpa using hba
      | j + 1 =>
        have := ih (by simpa using Nat.lt_of_succ_lt_succ hlen) (Nat.lt_of_succ_lt_succ hj)
        simpa using this

theorem choose_child_argmax (pcs : List Node) (hne : pcs ≠ []) :
    ∃ i : Fin pcs.length,
      SelectivePruner.choose_child pcs = pcs.get i
      ∧ (∀ j : Fin pcs.length,
          SelectivePruner.child_promise (pcs.get j) ≤
            SelectivePruner.child_promise (pcs.get i))
      ∧ (∀ j : Fin pcs.length, (j : ℕ) < (i : ℕ) →
          SelectivePruner.child_promise (pcs.get j) <
            SelectivePruner.child_promise (pcs.get i)) := by
  set promises := pcs.map SelectivePruner.child_promise with hpr
  have hpne : promises ≠ [] := by
    simp only [hpr, ne_eq, List.map_eq_nil]
    exact hne
  have hmem := (pyMax_spec promises).1 hpne
  have hidx : promises.indexOf (pyMax promises) < promises.length :=
    List.indexOf_lt_length.2 hmem
  have hlen : promises.length = pcs.length := List.length_map pcs _
  have hidx2 : promises.indexOf (pyMax promises) < pcs.length := hlen ▸ hidx
  have hget : ∀ j : Fin pcs.length,
      SelectivePruner.child_promise (pcs.get j) = promises.get ⟨j.1, by omega⟩ := by
    intro j
    simp [hpr, List.get_eq_getElem, List.getElem_map]
  refine ⟨⟨promises.indexOf (pyMax promises), hidx2⟩, ?_, ?_, ?_⟩
  · show pcs.getD (promises.indexOf (pyMax promises)) (.leaf [] true) = _
    exact List.getD_eq_get pcs _ hidx2
  · intro j
    rw [hget j, hget ⟨_, hidx2⟩]
    have h1 : promises.get ⟨_, hidx⟩ = pyMax promises := List.indexOf_get hidx
    rw [h1]
    exact (pyMax_spec promises).2 _ (promises.get_mem _ _)
  · intro j hj
    rw [hget j, hget ⟨_, hidx2⟩]
    have h1 : promises.get ⟨_, hidx⟩ = pyMax promises := List.indexOf_get hidx
    rw [h1]
    have hne2 : promises.get ⟨j.1, by omega⟩ ≠ pyMax promises :=
      get_ne_of_lt_indexOf _ hj
    exact lt_of_le_of_ne ((pyMax_spec promises).2 _ (promises.get_mem _ _)) hne2

/-! ### Claim theorems -/

/-- C1: for every tree whose root is a branch, `SelectivePruner.prune_tree`
prunes in postorder (each branch's children first); an unimportant branch is
replaced by the already-pruned child of highest average promise — a leaf's
average promise being its own promise, a branch's the unweighted mean over
its subtree leaves, ties going to the first child — while an important
branch is kept with the pruned children installed. -/
theorem selective_pruner_postorder_argmax (imp : List String) (f : String)
    (s : List ℚ) (cs : List Node) (hne : cs ≠ []) :
    SelectivePrunerClaim imp f s cs := by
  have hcp : ∀ n : Node,
      SelectivePruner.child_promise n = SelectivePruner.average_promise_spec n := by
    intro n
    cases n <;> rfl
  refine ⟨rfl, ?_, hcp, ?_⟩
  · rw [selective_prune_subtree_branch]
    by_cases hf : f ∈ imp <;> simp [hf]
  · intro hf
    have hne2 : cs.map (SelectivePruner.prune_subtree imp) ≠ [] := by
      simpa using hne
    obtain ⟨i, h1, h2, h3⟩ := choose_child_argmax _ hne2
    refine ⟨i, ?_, fun j => ?_, fun j hj => ?_⟩
    · rw [selective_prune_subtree_branch, if_pos hf]
      exact h1
    · rw [← hcp, ← hcp]
      exact h2 j
    · rw [← hcp, ← hcp]
      exact h3 j hj

/-- Witness for `selective_pruner_postorder_argmax`: the spec's scenario —
a branch split on the unimportant feature "B" over two leaves of promises
1/5 and 7/10. -/
theorem selective_pruner_postorder_argmax_witness :
    ([Node.leaf [1, 1/5] true, Node.leaf [1, 7/10] true] : List Node) ≠ []
    ∧ SelectivePrunerClaim ["A"] "B" [1, 1]
        [Node.leaf [1, 1/5] true, Node.leaf [1, 7/10] true] :=
  ⟨by simp, selective_pruner_postorder_argmax ["A"] "B" [1, 1]
    [Node.leaf [1, 1/5] true, Node.leaf [1, 7/10] true] (by simp)⟩

/-- C2: `CompletePruner.prune_subtree` replaces a branch split on an
unimportant feature by a fresh leaf initialized with the branch's own
pre-split statistics — installed at the parent slot being visited, or as the
new root when the branch is the root — and recurses into every child of a
branch split on an important feature. -/
theorem complete_pruner_replaces_unimportant (imp : List String) (f : String)
    (s : List ℚ) (cs : List Node) :
    CompletePrunerClaim imp f s cs := by
  constructor
  · intro hf
    refine ⟨?_, rfl, ?_⟩
    · rw [complete_prune_subtree_branch, if_pos hf]
    · show CompletePruner.prune_subtree imp (.branch f s cs) = _
      rw [complete_prune_subtree_branch, if_pos hf]
  · intro hf
    constructor
    · rw [complete_prune_subtree_branch, if_neg (by simp [hf])]
    · intro i
      simp [List.get_eq_getElem, List.getElem_map]

/-- Witness for `complete_pruner_replaces_unimportant`: the spec's scenario
tree, where the "B" branch (unimportant) becomes a fresh leaf carrying the
"B" branch's own statistics `[2, 3]`, not either child's. -/
theorem complete_pruner_replaces_unimportant_witness :
    ("B" ∉ ["A"])
    ∧ CompletePruner.prune_subtree ["A"]
        (.branch "B" [2, 3] [Node.leaf [2, 0] true, Node.leaf [0, 3] true])
        = HoeffdingPruningTree.create_new_leaf [2, 3]
    ∧ HoeffdingPruningTree.create_new_leaf [2, 3] = Node.leaf [2, 3] true
    ∧ CompletePruner.prune_tree ["A"]
        (.branch "B" [2, 3] [Node.leaf [2, 0] true, Node.leaf [0, 3] true])
        = HoeffdingPruningTree.create_new_leaf [2, 3] :=
  ⟨by simp,
   (complete_pruner_replaces_unimportant ["A"] "B" [2, 3]
     [Node.leaf [2, 0] true, Node.leaf [0, 3] true]).1 (by simp)⟩

theorem complete_prune_tree_eq_subtree (imp : List String) (n : Node) :
    CompletePruner.prune_tree imp n = CompletePruner.prune_subtree imp n := by
  cases n with
  | leaf s a => rw [CompletePruner.prune_subtree]; rfl
  | branch f s cs => rfl

theorem complete_prune_allImportant (imp : List String) (n : Node) :
    Node.allImportant imp (CompletePruner.prune_subtree imp n) = true := by
  induction n using Node.myInduction with
  | hleaf s a =>
    rw [CompletePruner.prune_subtree, Node.allImportant]
  | hbranch f s cs ih =>
    rw [complete_prune_subtree_branch]
    by_cases hf : f ∈ imp
    · rw [if_neg (by simp [hf]), allImportant_branch]
      simp only [hf, decide_True, Bool.true_and, List.all_eq_true]
      intro c hc
      obtain ⟨d, hd, rfl⟩ := List.mem_map.mp hc
      exact ih d hd
    · rw [if_pos hf]
      rw [HoeffdingPruningTree.create_new_leaf, Node.allImportant]

theorem complete_prune_fixed_of_allImportant (imp : List String) (n : Node)
    (h : Node.allImportant imp n = true) :
    CompletePruner.prune_subtree imp n = n := by
  induction n using Node.myInduction with
  | hleaf s a => rw [CompletePruner.prune_subtree]
  | hbranch f s cs ih =>
    rw [allImportant_branch] at h
    simp only [Bool.and_eq_true, decide_eq_true_eq, List.all_eq_true] at h
    rw [complete_prune_subtree_branch, if_neg (by simp [h.1])]
    congr 1
    have : cs.map (CompletePruner.prune_subtree imp) = cs.map id := by
      apply List.map_congr_left
      intro c hc
      exact ih c hc (h.2 c hc)
    rw [this, List.map_id]

/-- C5: running `CompletePruner.prune_tree` twice with the same
important-feature set equals running it once — the second pass changes
nothing, because after the first pass every branch remaining in the tree
splits on an important feature. -/
theorem complete_pruner_idempotent (imp : List String) (root : Node) :
    CompletePruner.prune_tree imp (CompletePruner.prune_tree imp root)
        = CompletePruner.prune_tree imp root
    ∧ Node.allImportant imp (CompletePruner.prune_tree imp root) = true := by
  rw [complete_prune_tree_eq_subtree, complete_prune_tree_eq_subtree]
  exact ⟨complete_prune_fixed_of_allImportant imp _
      (complete_prune_allImportant imp root),
    complete_prune_allImportant imp root⟩

/-- C3: after each observation the important-feature set is recomputed —
exactly the features whose running importance reaches the threshold when at
least one does, and all feature names (pruning disabled) when none does. -/
theorem update_important_features_spec (t : ℚ) (names : List String)
    (vals : List (String × ℚ)) : UpdateImportantClaim t names vals := by
  constructor
  · intro hex k
    have hany : vals.any (fun p => decide (t ≤ p.2)) = true := by
      rw [List.any_eq_true]
      obtain ⟨p, hp, hle⟩ := hex
      exact ⟨p, hp, by simpa using hle⟩
    rw [HoeffdingPruningTree.update_important_features, if_pos hany]
    constructor
    · intro hk
      obtain ⟨p, hp, rfl⟩ := List.mem_map.mp hk
      have := List.mem_filter.mp hp
      exact ⟨p.2, by simpa using this.1, by simpa using this.2⟩
    · rintro ⟨v, hv, hle⟩
      exact List.mem_map.mpr ⟨(k, v), List.mem_filter.mpr ⟨hv, by simpa using hle⟩, rfl⟩
  · intro hall
    have hany : vals.any (fun p => decide (t ≤ p.2)) = false := by
      rw [List.any_eq_false]
      intro p hp
      simpa using not_le.mpr (hall p hp)
    rw [HoeffdingPruningTree.update_important_features, if_neg (by simp [hany])]

/-- Witness for `update_important_features_spec`: with threshold 1/2,
importance values `a ↦ 1, b ↦ 0` select exactly `a`; values `a ↦ 0` fall
back to all feature names. -/
theorem update_important_features_spec_witness :
    (∃ p ∈ [("a", (1 : ℚ)), ("b", 0)], (1 : ℚ)/2 ≤ p.2)
    ∧ ("a" ∈ HoeffdingPruningTree.update_important_features (1/2) ["a", "b"]
          [("a", 1), ("b", 0)] ↔
        ∃ v : ℚ, (("a", v) ∈ [("a", (1 : ℚ)), ("b", 0)]) ∧ (1 : ℚ)/2 ≤ v)
    ∧ (∀ p ∈ [("a", (0 : ℚ))], p.2 < (1 : ℚ)/2)
    ∧ HoeffdingPruningTree.update_important_features (1/2) ["a", "b"]
        [("a", 0)] = ["a", "b"] :=
  ⟨by norm_num,
   (update_important_features_spec (1/2) ["a", "b"] [("a", 1), ("b", 0)]).1
     (by norm_num) "a",
   by norm_num,
   (update_important_features_spec (1/2) ["a", "b"] [("a", 0)]).2
     (by norm_num)⟩

theorem countP_active_add_inactive (l : List (List ℚ × Bool)) :
    l.countP (fun p => p.2) + l.countP (fun p => !p.2) = l.length := by
  induction l with
  | nil => rfl
  | cons a l ih =>
    cases h : a.2 <;> simp [List.countP_cons, h] <;> omega

/-- C4: in each `learn_one` call the pruner runs exactly when the newly
computed important-feature set differs (as a set) from the previous
observation's set; immediately after pruning the active/inactive leaf counts
are recomputed by enumerating the pruned tree's leaves, so they sum to its
leaf count; and the new set becomes the reference set for the next
observation. -/
theorem learn_one_gates_pruning (pruneFn : List String → Node → Node)
    (grow : Node → ℚ → Node) (t : ℚ) (x_keys : List String)
    (vals : List (String × ℚ)) (st : HoeffdingPruningTree.HPTState) (w : ℚ)
    (hinit : st.initialized = true) :
    LearnOneClaim pruneFn grow t x_keys vals st w := by
  unfold LearnOneClaim HoeffdingPruningTree.learn_one
  by_cases hgate : st.last_important_features =
      (HoeffdingPruningTree.update_important_features t
        st.feature_names vals).toFinset
  · simp [hinit, hgate]
  · simp [hinit, hgate, HoeffdingPruningTree.update_leaf_counts,
      countP_active_add_inactive]

/-- Witness for `learn_one_gates_pruning`: a concrete initialized state whose
previous important set differs from the newly computed one. -/
theorem learn_one_gates_pruning_witness :
    (HoeffdingPruningTree.HPTState.mk (Node.leaf [1] true) 1 0 ["a", "b"]
        ["a", "b"] {"a", "b"} true).initialized = true
    ∧ LearnOneClaim CompletePruner.prune_tree (fun n _ => n) (1/2) ["a", "b"]
        [("a", 1), ("b", 0)]
        (HoeffdingPruningTree.HPTState.mk (Node.leaf [1] true) 1 0 ["a", "b"]
          ["a", "b"] {"a", "b"} true) 1 :=
  ⟨rfl,
   learn_one_gates_pruning CompletePruner.prune_tree (fun n _ => n) (1/2)
     ["a", "b"] [("a", 1), ("b", 0)]
     (HoeffdingPruningTree.HPTState.mk (Node.leaf [1] true) 1 0 ["a", "b"]
       ["a", "b"] {"a", "b"} true) 1 rfl⟩

/-- C10: `learn_one` ignores its `sample_weight` argument — any two values
produce identical resulting states, because the delegated tree-growth update
is always invoked with weight `1.0`. -/
theorem learn_one_ignores_sample_weight (pruneFn : List String → Node → Node)
    (grow : Node → ℚ → Node) (t : ℚ) (x_keys : List String)
    (vals : List (String × ℚ)) (st : HoeffdingPruningTree.HPTState)
    (w1 w2 : ℚ) :
    HoeffdingPruningTree.learn_one pruneFn grow t x_keys vals st w1
      = HoeffdingPruningTree.learn_one pruneFn grow t x_keys vals st w2 := rfl

theorem geom_update_fields (r : GeometricReservoirStorage) (x : ℕ)
    (y : Option ℕ) :
    (GeometricReservoirStorage.update r x y).size = r.size
    ∧ (GeometricReservoirStorage.update r x y).storage_x.length
        = if r.storage_x.length < r.size then r.storage_x.length + 1
          else r.storage_x.length := by
  unfold GeometricReservoirStorage.update
  by_cases h : r.storage_x.length < r.size
  · simp [h]
  · simp only [h, if_false]
    split
    · simp [h]
    · simp [h]

theorem geom_run_length (inputs : List (ℕ × Option ℕ)) :
    ∀ r : GeometricReservoirStorage, r.storage_x.length ≤ r.size →
      (GeometricReservoirStorage.run r inputs).1.storage_x.length
          = min r.size (r.storage_x.length + inputs.length) := by
  induction inputs with
  | nil =>
    intro r hr
    rw [GeometricReservoirStorage.run]
    simp [Nat.min_eq_right hr]
  | cons p ps ih =>
    intro r hr
    rw [GeometricReservoirStorage.run]
    obtain ⟨hsz, hlen⟩ := geom_update_fields r p.1 p.2
    by_cases hc : r.storage_x.length < r.size
    · rw [if_pos hc] at hlen
      have h2 := ih (GeometricReservoirStorage.update r p.1 p.2)
        (by rw [hlen, hsz]; omega)
      rw [h2, hsz, hlen, List.length_cons]
      congr 1
      omega
    · rw [if_neg hc] at hlen
      have heq : r.storage_x.length = r.size := le_antisymm hr (not_lt.mp hc)
      have h2 := ih (GeometricReservoirStorage.update r p.1 p.2)
        (by rw [hlen, hsz]; omega)
      rw [h2, hsz, hlen, List.length_cons, heq]
      rw [Nat.min_eq_left (Nat.le_add_right _ _),
        Nat.min_eq_left (Nat.le_add_right _ _)]

theorem uniform_update_fields (u : UniformReservoirStorage) (x : ℕ)
    (y : Option ℕ) :
    (UniformReservoirStorage.update u x y).size = u.size
    ∧ (UniformReservoirStorage.update u x y).stored_samples
        = u.stored_samples + 1
    ∧ (UniformReservoirStorage.update u x y).storage_x.length
        = if u.stored_samples + 1 ≤ u.size then u.storage_x.length + 1
          else u.storage_x.length := by
  unfold UniformReservoirStorage.update
  by_cases h : u.stored_samples + 1 ≤ u.size
  · simp [h]
  · simp only [h, if_false]
    by_cases h2 : u.algo_l_counter = u.stored_samples + 1
    · simp [h, h2]
    · simp [h, h2]

theorem uniform_run_length (inputs : List (ℕ × Option ℕ)) :
    ∀ u : UniformReservoirStorage,
      u.storage_x.length = min u.size u.stored_samples →
      (UniformReservoirStorage.run u inputs).1.storage_x.length
          = min u.size (u.stored_samples + inputs.length) := by
  induction inputs with
  | nil =>
    intro u hu
    rw [UniformReservoirStorage.run]
    simpa using hu
  | cons p ps ih =>
    intro u hu
    rw [UniformReservoirStorage.run]
    obtain ⟨hsz, hss, hlen⟩ := uniform_update_fields u p.1 p.2
    have hinv : (UniformReservoirStorage.update u p.1 p.2).storage_x.length
        = min (UniformReservoirStorage.update u p.1 p.2).size
            (UniformReservoirStorage.update u p.1 p.2).stored_samples := by
      rw [hsz, hss, hlen]
      split <;> omega
    have h2 := ih (UniformReservoirStorage.update u p.1 p.2) hinv
    rw [h2, hsz, hss, List.length_cons]
    congr 1
    omega

/-- C6: for both reservoir variants and every input sequence, the number of
stored items after `k` updates is exactly `min capacity k`, hence never
exceeds the capacity: items are appended while below capacity; at capacity an
incoming item can only overwrite a slot in place. -/
theorem reservoir_capacity_invariant (size : ℕ) (cp : Option ℚ) (b : Bool)
    (rng : Rng) (inputs : List (ℕ × Option ℕ)) (hs : 0 < size) :
    ReservoirCapacityClaim size cp b rng inputs := by
  have hg := geom_run_length inputs (GeometricReservoirStorage.init size cp b rng)
    (by simp [GeometricReservoirStorage.init])
  have hu := uniform_run_length inputs (UniformReservoirStorage.init size b rng)
    (by simp [UniformReservoirStorage.init])
  refine ⟨?_, ?_, ?_, ?_⟩
  · rw [hg]; simp [GeometricReservoirStorage.init]
  · rw [hu]; simp [UniformReservoirStorage.init]
  · rw [hg]
    simp only [GeometricReservoirStorage.init, List.length_nil, Nat.zero_add]
    exact Nat.min_le_left _ _
  · rw [hu]
    simp only [UniformReservoirStorage.init, Nat.zero_add]
    exact Nat.min_le_left _ _

/-- Witness for `reservoir_capacity_invariant`: capacity 2, four inputs. -/
theorem reservoir_capacity_invariant_witness :
    0 < 2
    ∧ ReservoirCapacityClaim 2 none false
        (Rng.mk [0, 0, 0, 0] [0, 1, 0, 1] [1, 1, 1, 1])
        [(1, none), (2, none), (3, none), (4, none)] :=
  ⟨by decide,
   reservoir_capacity_invariant 2 none false
     (Rng.mk [0, 0, 0, 0] [0, 1, 0, 1] [1, 1, 1, 1])
     [(1, none), (2, none), (3, none), (4, none)] (by decide)⟩

/-- C7 (amended): once the geometric reservoir is full, one uniform float is
drawn and the item is included if and only if the draw is less than or equal
to `constant_probability` (the source's `random_float <= p` test, not a
strict comparison); on inclusion a uniformly drawn slot in `[0, capacity)`
is overwritten, on non-inclusion the buffer is unchanged; `p` defaults to
`1/capacity`. -/
theorem geometric_full_update_spec (r : GeometricReservoirStorage) (x : ℕ)
    (y : Option ℕ) (hfull : ¬ r.storage_x.length < r.size) :
    GeometricFullUpdateClaim r x y := by
  refine ⟨?_, ?_, ?_⟩
  · intro hle
    refine ⟨?_, fun hs => Nat.mod_lt _ hs⟩
    unfold GeometricReservoirStorage.update
    rw [if_neg hfull]
    dsimp only
    rw [if_pos hle]
  · intro hlt
    unfold GeometricReservoirStorage.update
    rw [if_neg hfull]
    dsimp only
    rw [if_neg (not_le.mpr hlt)]
  · intro size b rng
    rfl

/-- Witness for `geometric_full_update_spec`: a full capacity-1 reservoir
with `p = 1/2`. -/
theorem geometric_full_update_spec_witness :
    ¬ ((GeometricReservoirStorage.mk 1 (1/2) false (Rng.mk [1/2] [0] [])
          [0] []).storage_x.length
        < (GeometricReservoirStorage.mk 1 (1/2) false (Rng.mk [1/2] [0] [])
          [0] []).size)
    ∧ GeometricFullUpdateClaim
        (GeometricReservoirStorage.mk 1 (1/2) false (Rng.mk [1/2] [0] [])
          [0] []) 5 none :=
  ⟨by decide, geometric_full_update_spec _ 5 none (by decide)⟩

/-- Counterexample to C7 as stated: with `p = 1` and the drawn float equal
to `1` — hence not strictly below `p` — the incoming item is nevertheless
included (the buffer changes from `[0]` to `[5]`), because the source tests
`random_float <= p`. -/
theorem geometric_inclusion_boundary :
    (GeometricReservoirStorage.update
        (GeometricReservoirStorage.mk 1 1 false (Rng.mk [1] [0] [])
          [0] []) 5 none).storage_x = [5]
    ∧ ¬ ((1 : ℚ) < (1 : ℚ)) :=
  ⟨by decide, by norm_num⟩

/-- C8: both reservoir variants are deterministic under seeding — equal
seeds and equal input sequences yield identical include/evict decision
traces and identical final reservoir contents. -/
theorem reservoir_seed_determinism (mkRng : ℕ → Rng) (size : ℕ)
    (cp : Option ℚ) (b : Bool) (seed1 seed2 : ℕ)
    (xs1 xs2 : List (ℕ × Option ℕ)) (hseed : seed1 = seed2)
    (hxs : xs1 = xs2) :
    GeometricReservoirStorage.run
        (GeometricReservoirStorage.init size cp b (mkRng seed1)) xs1
      = GeometricReservoirStorage.run
        (GeometricReservoirStorage.init size cp b (mkRng seed2)) xs2
    ∧ UniformReservoirStorage.run
        (UniformReservoirStorage.init size b (mkRng seed1)) xs1
      = UniformReservoirStorage.run
        (UniformReservoirStorage.init size b (mkRng seed2)) xs2 := by
  subst hseed hxs
  exact ⟨rfl, rfl⟩

/-- Witness for `reservoir_seed_determinism`: seed 3 twice, one input. -/
theorem reservoir_seed_determinism_witness :
    (3 = 3)
    ∧ ([((1 : ℕ), (none : Option ℕ))] = [(1, none)])
    ∧ (GeometricReservoirStorage.run
          (GeometricReservoirStorage.init 2 none false
            ((fun n => Rng.mk [1/2] [n] [1]) 3)) [(1, none)]
        = GeometricReservoirStorage.run
          (GeometricReservoirStorage.init 2 none false
            ((fun n => Rng.mk [1/2] [n] [1]) 3)) [(1, none)]
      ∧ UniformReservoirStorage.run
          (UniformReservoirStorage.init 2 false
            ((fun n => Rng.mk [1/2] [n] [1]) 3)) [(1, none)]
        = UniformReservoirStorage.run
          (UniformReservoirStorage.init 2 false
            ((fun n => Rng.mk [1/2] [n] [1]) 3)) [(1, none)]) :=
  ⟨rfl, rfl,
   reservoir_seed_determinism (fun n => Rng.mk [1/2] [n] [1]) 2 none false
     3 3 [(1, none)] [(1, none)] rfl rfl⟩

/-- C9: constructing a `HoeffdingPruningTree` with a pruner kind other than
"selective" or "complete" raises, during construction and before any
observation is processed, a `ValueError` whose message names the invalid
value and the two valid options; the two valid kinds install the
corresponding pruner. -/
theorem set_pruner_validation (s : String) (h1 : s ≠ "selective")
    (h2 : s ≠ "complete") :
    HoeffdingPruningTree.set_pruner s =
      .error ("Invalid pruner type: " ++ s ++
        ". Valid options are \x27selective\x27 or \x27complete\x27.")
    ∧ HoeffdingPruningTree.set_pruner "selective" = .ok .selective
    ∧ HoeffdingPruningTree.set_pruner "complete" = .ok .complete := by
  refine ⟨?_, rfl, rfl⟩
  rw [HoeffdingPruningTree.set_pruner, if_neg h1, if_neg h2]

/-- Witness for `set_pruner_validation`: the invalid kind "foo". -/
theorem set_pruner_validation_witness :
    ("foo" ≠ "selective")
    ∧ ("foo" ≠ "complete")
    ∧ (HoeffdingPruningTree.set_pruner "foo" =
        .error ("Invalid pruner type: " ++ "foo" ++
          ". Valid options are \x27selective\x27 or \x27complete\x27.")
      ∧ HoeffdingPruningTree.set_pruner "selective" = .ok .selective
      ∧ HoeffdingPruningTree.set_pruner "complete" = .ok .complete) :=
  ⟨by decide, by decide,
   set_pruner_validation "foo" (by decide) (by decide)⟩
